import Mathlib

/-!
A shallow embedding of Injecto's directive-processing engine
(`src/processing.py`) and proofs about it.

Lines of text are modelled as `List Char` (a Python line including its
trailing newline).  Python regular-expression operations used by the engine
are modelled by explicit scanning functions; the patterns involved
(`#\s*@section\s+([\w.-]+)\s+begin`, `#\s*@param\s+([\w.-]+)`,
`^(\s*(?:-\s+)?[\w.-]+\s*[:=])`, `(\s*#.*)`, `#\s?`) are deterministic in
the sense that greedy runs never need to backtrack, except for the one
optional dash group, which is modelled with its two alternatives in order.
ASCII text is assumed (the `\w` class is modelled as ASCII word characters).
-/

namespace Injecto

/-- The whitespace class of Python's `str.strip` / regex `\s` (ASCII). -/
def pyIsSpace (c : Char) : Bool :=
  c = ' ' || c = '\t' || c = '\n' || c = '\r' || c = '\x0b' || c = '\x0c'

/-- Regex `\w` (ASCII): letters, digits, underscore. -/
def isWordChar (c : Char) : Bool :=
  c.isAlpha || c.isDigit || c = '_'

/-- The key character class `[\w.-]` of the directive regexes. -/
def isKeyChar (c : Char) : Bool :=
  isWordChar c || c = '.' || c = '-'

/-- The double-quote character. -/
def dq : Char := Char.ofNat 34

/-- The single-quote character. -/
def sq : Char := Char.ofNat 39

/-- The backslash character. -/
def bslash : Char := Char.ofNat 92

/-- The newline character, written out so string literals need no escapes. -/
def nlc : Char := Char.ofNat 10

/-- Python `str.lstrip()`. -/
def lstrip (l : List Char) : List Char := l.dropWhile pyIsSpace

/-- Python `str.rstrip()`. -/
def rstrip (l : List Char) : List Char := (l.reverse.dropWhile pyIsSpace).reverse

/-- Python `str.strip()`. -/
def pyStrip (l : List Char) : List Char := rstrip (lstrip l)

/-- `line.lstrip().startswith('#')` — the engine's comment test. -/
def isCommented (l : List Char) : Bool :=
  match lstrip l with
  | c :: _ => c = '#'
  | [] => false

/-- `not line.strip()` — the engine's blank test. -/
def isBlank (l : List Char) : Bool := (pyStrip l).isEmpty

/- The YAML/JSON-like value universe of the merged data tree, written as a
mutual inductive family so that every recursion over it is structural.
`ValueMap` is an insertion-ordered dictionary, as in Python. -/
mutual
inductive Value where
  | null
  | bool (b : Bool)
  | int (n : Int)
  | str (s : List Char)
  | list (xs : ValueList)
  | map (m : ValueMap)
deriving DecidableEq, Repr
inductive ValueList where
  | nil
  | cons (v : Value) (tl : ValueList)
deriving DecidableEq, Repr
inductive ValueMap where
  | nil
  | cons (k : List Char) (v : Value) (tl : ValueMap)
deriving DecidableEq, Repr
end

/-- Build a `ValueList` from a Lean list (literals convenience). -/
def vlist : List Value → ValueList
  | [] => .nil
  | v :: tl => .cons v (vlist tl)

/-- Build a `ValueMap` from a Lean association list (literals convenience). -/
def vmap : List (List Char × Value) → ValueMap
  | [] => .nil
  | (k, v) :: tl => .cons k v (vmap tl)

/-- `target[key] = value` on a Python dict: replace the first binding of the
key in place, else append at the end (insertion order preserved). -/
def setKey : ValueMap → List Char → Value → ValueMap
  | .nil, k, v => .cons k v .nil
  | .cons k' v' rest, k, v =>
    if k' = k then .cons k v rest else .cons k' v' (setKey rest k v)

/-- Python dict lookup returning `none` on a missing key. -/
def assocLookup : ValueMap → List Char → Option Value
  | .nil, _ => none
  | .cons k' v' rest, k => if k' = k then some v' else assocLookup rest k

/-- `deep_merge` from `processing.py`: merge `source` into `target`; when
both sides hold dicts at a key, merge recursively (on a key missing from
the target, `setdefault` installs an empty dict first), otherwise the
incoming value replaces the existing one. -/
def deep_merge (target : ValueMap) (source : ValueMap) : ValueMap :=
  match source with
  | .nil => target
  | .cons k v rest =>
    let t' :=
      match v with
      | .map m =>
        match assocLookup target k with
        | some (.map tm) => setKey target k (.map (deep_merge tm m))
        | some _ => setKey target k (.map m)
        | none => setKey target k (.map (deep_merge .nil m))
      | _ => setKey target k v
    deep_merge t' rest

/-- Python truthiness of a parsed YAML value. -/
def pyTruthy : Value → Bool
  | .null => false
  | .bool b => b
  | .int n => n != 0
  | .str s => !s.isEmpty
  | .list .nil => false
  | .list (.cons _ _) => true
  | .map .nil => false
  | .map (.cons _ _ _) => true

/-- `path.split('.')`: never empty; `"".split('.') == [""]`. -/
def splitOnDot : List Char → List (List Char)
  | [] => [[]]
  | c :: rest =>
    if c = '.' then [] :: splitOnDot rest
    else
      match splitOnDot rest with
      | g :: gs => (c :: g) :: gs
      | [] => [[c]]

/-- The subscripting loop of `get_value_by_path`: `none` models the raised
`KeyError`/`TypeError` (missing key, or subscripting a non-dict). -/
def pathLoop : Value → List (List Char) → Option Value
  | v, [] => some v
  | .map m, k :: ks =>
    match assocLookup m k with
    | some v => pathLoop v ks
    | none => none
  | _, _ :: _ => none

/-- `get_value_by_path`: the returned Python object (where `None` — either a
raised-and-caught traversal error or a null leaf — is `none`), paired with
whether the "Path not found" warning was logged (only the exception
branch logs it). -/
def getValueByPath (data : ValueMap) (path : List Char) : Option Value × Bool :=
  match pathLoop (.map data) (splitOnDot path) with
  | none => (none, true)
  | some .null => (none, false)
  | some v => (some v, false)

/-- JSON string escaping as in Python's `json.dumps` (ASCII). -/
def jsonEscapeChar (c : Char) : List Char :=
  if c = dq then [bslash, dq]
  else if c = bslash then [bslash, bslash]
  else if c = '\n' then [bslash, 'n']
  else if c = '\t' then [bslash, 't']
  else if c = '\r' then [bslash, 'r']
  else if c = '\x08' then [bslash, 'b']
  else if c = '\x0c' then [bslash, 'f']
  else if c.toNat < 32 then
    let hex : Nat → Char := fun n => if n < 10 then Char.ofNat (48 + n) else Char.ofNat (87 + n)
    [bslash, 'u', '0', '0', hex (c.toNat / 16), hex (c.toNat % 16)]
  else [c]

def jsonEscape : List Char → List Char
  | [] => []
  | c :: rest => jsonEscapeChar c ++ jsonEscape rest

/- `json.dumps` with its default separators `", "` and `": "`. -/
mutual
def jsonDumps : Value → List Char
  | .null => "null".data
  | .bool b => if b then "true".data else "false".data
  | .int n => (toString n).data
  | .str s => dq :: jsonEscape s ++ [dq]
  | .list xs => '[' :: jsonItems xs ++ [']']
  | .map m => '{' :: jsonEntries m ++ ['}']
def jsonItems : ValueList → List Char
  | .nil => []
  | .cons v .nil => jsonDumps v
  | .cons v tl => jsonDumps v ++ ',' :: ' ' :: jsonItems tl
def jsonEntries : ValueMap → List Char
  | .nil => []
  | .cons k v .nil => dq :: jsonEscape k ++ dq :: ':' :: ' ' :: jsonDumps v
  | .cons k v tl =>
    dq :: jsonEscape k ++ dq :: ':' :: ' ' :: jsonDumps v ++ ',' :: ' ' :: jsonEntries tl
end

/-- `value.startswith(c) and value.endswith(c)` for a one-character affix. -/
def wrappedIn (c : Char) (s : List Char) : Bool :=
  (s.head? == some c) && (s.getLast? == some c)

/-- `format_value_for_file`: strings keep a matching outer quote pair or are
double-quoted; booleans lowercase; lists/dicts JSON; `str()` otherwise
(`str(None) == "None"`). -/
def format_value_for_file : Value → List Char
  | .str s => if wrappedIn dq s || wrappedIn sq s then s else dq :: s ++ [dq]
  | .bool b => if b then "true".data else "false".data
  | .list xs => jsonDumps (.list xs)
  | .map m => jsonDumps (.map m)
  | .int n => (toString n).data
  | .null => "None".data

/-- Try to match `#\s*TAG\s+([\w.-]+)` (and, when `w?` is set, a further
`\s+WORD`) starting exactly at this position; return the captured key.
Greedy runs need no backtracking here: every run is followed by a
literal whose first character the run's class excludes. -/
def matchDirAt (tag : List Char) (w? : Option (List Char)) (cs : List Char) :
    Option (List Char) :=
  match cs with
  | c0 :: r0 =>
    if c0 = '#' then
      let r1 := r0.dropWhile pyIsSpace
      if tag.isPrefixOf r1 then
        let r2 := r1.drop tag.length
        match r2 with
        | c2 :: _ =>
          if pyIsSpace c2 then
            let r3 := r2.dropWhile pyIsSpace
            let key := r3.takeWhile isKeyChar
            if key.isEmpty then none
            else
              match w? with
              | none => some key
              | some w =>
                let r4 := r3.drop key.length
                match r4 with
                | c4 :: _ =>
                  if pyIsSpace c4 then
                    if w.isPrefixOf (r4.dropWhile pyIsSpace) then some key else none
                  else none
                | [] => none
          else none
        | [] => none
      else none
    else none
  | [] => none

/-- `re.search`: scan for the leftmost position where the directive
pattern matches. -/
def searchDir (tag : List Char) (w? : Option (List Char)) : List Char → Option (List Char)
  | [] => none
  | c :: rest =>
    match matchDirAt tag w? (c :: rest) with
    | some k => some k
    | none => searchDir tag w? rest

/-- `re.search(r'#\s*@section\s+([\w.-]+)\s+begin', line)`. -/
def searchSectionBegin (line : List Char) : Option (List Char) :=
  searchDir "@section".data (some "begin".data) line

/-- `re.search(r'#\s*@section\s+([\w.-]+)\s+end', line)`. -/
def searchSectionEnd (line : List Char) : Option (List Char) :=
  searchDir "@section".data (some "end".data) line

/-- `re.search(r'#\s*@param\s+([\w.-]+)', line)`. -/
def searchParam (line : List Char) : Option (List Char) :=
  searchDir "@param".data none line

/-- `f"{indent}# {line.lstrip()}"` where `indent` is the line's leading
whitespace. -/
def commentLine (line : List Char) : List Char :=
  line.takeWhile pyIsSpace ++ '#' :: ' ' :: lstrip line

/-- `re.sub(r'#\s?', '', line, 1)`: remove the first `#` anywhere in the
line together with at most one directly following whitespace character. -/
def subHashOnce : List Char → List Char
  | [] => []
  | c :: rest =>
    if c = '#' then
      match rest with
      | c2 :: r2 => if pyIsSpace c2 then r2 else rest
      | [] => []
    else c :: subHashOnce rest

/-- `value is False` on the object returned by `get_value_by_path`. -/
def isFalseValue : Option Value → Bool
  | some (.bool false) => true
  | _ => false

/-- One open `@section` scope on the stack. -/
structure Frame where
  key : List Char
  shouldBeCommented : Bool
deriving DecidableEq, Repr

/-- Per-file state of the section pass: the frame stack plus the counters
the pass touches (`warns` counts mismatched-end-tag warnings). -/
structure SecState where
  stack : List Frame
  toggles : Nat
  modified : Bool
  warns : Nat
deriving DecidableEq, Repr

/-- The transformation the section pass applies to a non-marker line under
the innermost frame's policy; returns the new line and whether a toggle
was counted (the count is guarded by an actual text change). -/
def transformLine (f : Frame) (line : List Char) : List Char × Bool :=
  if f.shouldBeCommented && !isCommented line && !isBlank line then
    let nl := commentLine line
    if nl ≠ line then (nl, true) else (nl, false)
  else if !f.shouldBeCommented && isCommented line then
    let unc := lstrip (subHashOnce line)
    if "@param".data.isPrefixOf unc || "@section".data.isPrefixOf unc then
      (line, false)
    else
      let nl := subHashOnce line
      if nl ≠ line then (nl, true) else (nl, false)
  else (line, false)

/-- The line-transformation half of one section-pass iteration: if the stack
is non-empty and the line is not a marker, apply the innermost frame's
policy, counting a toggle (and setting the modified flag) when the text
changed. -/
def lineUpdate (st : SecState) (isMarker : Bool) (line : List Char) :
    List Char × SecState :=
  match st.stack with
  | f :: _ =>
    if isMarker then (line, st)
    else
      let t := transformLine f line
      if t.2 then
        (t.1, { st with toggles := st.toggles + 1, modified := true })
      else (t.1, st)
  | [] => (line, st)

/-- The stack-update half of one section-pass iteration: push on a
begin-marker (the `if`/`elif` gives it priority over an end-match on
the same line), pop a matching end-marker, warn on a mismatched or
orphaned one leaving the stack untouched. -/
def markerUpdate (data : ValueMap) (bM eM : Option (List Char))
    (st : SecState) : SecState :=
  match bM with
  | some k =>
    { st with stack := ⟨k, isFalseValue (getValueByPath data k).1⟩ :: st.stack }
  | none =>
    match eM with
    | some k =>
      match st.stack with
      | top :: rest =>
        if top.key = k then { st with stack := rest }
        else { st with warns := st.warns + 1 }
      | [] => { st with warns := st.warns + 1 }
    | none => st

/-- One iteration of the section-pass loop (`processing.py` lines 131-165):
classify markers, transform a plain line under the innermost frame, then
update the stack from the markers. -/
def sectionStep (data : ValueMap) (st : SecState) (line : List Char) :
    SecState × List Char :=
  let bM := searchSectionBegin line
  let eM := searchSectionEnd line
  let tr := lineUpdate st (bM.isSome || eM.isSome) line
  (markerUpdate data bM eM tr.2, tr.1)

/-- The section pass's fold over the file's lines. -/
def sectionGo (data : ValueMap) (st : SecState) :
    List (List Char) → List (List Char) × SecState
  | [] => ([], st)
  | l :: rest =>
    let s := sectionStep data st l
    let r := sectionGo data s.1 rest
    (s.2 :: r.1, r.2)

/-- Pass 1 of `process_files`, started on an empty stack and zeroed
counters. -/
def sectionPass (data : ValueMap) (lines : List (List Char)) :
    List (List Char) × SecState :=
  sectionGo data ⟨[], 0, false, 0⟩ lines

/-- Match `re.match(r'^(\s*(?:-\s+)?[\w.-]+\s*[:=])', line)` and return the
captured structural prefix.  The optional dash group is tried first
(regex alternative order); all other greedy runs are deterministic. -/
def lineStructMatch (line : List Char) : Option (List Char) :=
  let ws := line.takeWhile pyIsSpace
  let rest := line.drop ws.length
  let tryKey : List Char → List Char → Option (List Char) := fun pre r =>
    let key := r.takeWhile isKeyChar
    if key.isEmpty then none
    else
      let r2 := r.drop key.length
      let ws2 := r2.takeWhile pyIsSpace
      match r2.drop ws2.length with
      | c :: _ => if c = ':' || c = '=' then some (pre ++ key ++ ws2 ++ [c]) else none
      | [] => none
  match rest with
  | '-' :: r1 =>
    match r1 with
    | c1 :: _ =>
      if pyIsSpace c1 then
        let ws1 := r1.takeWhile pyIsSpace
        match tryKey (ws ++ '-' :: ws1) (r1.drop ws1.length) with
        | some p => some p
        | none => tryKey ws rest
      else tryKey ws rest
    | [] => tryKey ws rest
  | _ => tryKey ws rest

/-- Match `\s*#.*` starting exactly at this position (`.` stops at a
newline); returns the captured group. -/
def wsHashAt (cs : List Char) : Option (List Char) :=
  let ws := cs.takeWhile pyIsSpace
  match cs.drop ws.length with
  | c :: tl => if c = '#' then some (ws ++ '#' :: tl.takeWhile (· != nlc)) else none
  | [] => none

/-- `re.search(r'(\s*#.*)', value_part)`: leftmost match. -/
def searchWsHash : List Char → Option (List Char)
  | [] => none
  | c :: rest =>
    match wsHashAt (c :: rest) with
    | some g => some g
    | none => searchWsHash rest

/-- The trailing inline comment preserved by the parameter pass. -/
def trailingComment (valuePart : List Char) : List Char :=
  (searchWsHash valuePart).getD []

/-- One parameter directive applied to its target line (`processing.py`
lines 170-192): returns the rewritten next line, or `none` when the
directive does not fire (no `@param` match, absent/null value, commented
target, or no structural prefix). -/
def paramStep (data : ValueMap) (dir target : List Char) : Option (List Char) :=
  match searchParam dir with
  | none => none
  | some path =>
    match (getValueByPath data path).1 with
    | none => none
    | some v =>
      if isCommented target then none
      else
        match lineStructMatch target with
        | none => none
        | some g =>
          let pfx := rstrip g
          let fv := format_value_for_file v
          let tc := trailingComment (target.drop g.length)
          some (pfx ++ ' ' :: (fv ++ tc ++ [nlc]))

/-- Pass 2 of `process_files`: each line is inspected as a directive against
the pass-1 output, and a firing directive rewrites the following line in
the final list; a replacement is counted only when the text changes. -/
def paramGo (data : ValueMap) : List (List Char) → List (List Char) × Nat × Bool
  | [] => ([], 0, false)
  | [l] => ([l], 0, false)
  | dir :: target :: rest =>
    let r := paramGo data (target :: rest)
    match paramStep data dir target with
    | some nl =>
      if nl ≠ target then (dir :: nl :: r.1.tail, r.2.1 + 1, true)
      else (dir :: r.1, r.2.1, r.2.2)
    | none => (dir :: r.1, r.2.1, r.2.2)

/-- The result of running both passes on one file. -/
structure FileResult where
  lines : List (List Char)
  toggles : Nat
  repls : Nat
  modified : Bool
  warns : Nat
deriving DecidableEq, Repr

/-- The per-file body of `process_files`: section pass, then parameter pass;
the modified flag is set by either pass's first actual change. -/
def processFile (data : ValueMap) (lines : List (List Char)) : FileResult :=
  let s := sectionPass data lines
  let p := paramGo data s.1
  ⟨p.1, s.2.toggles, p.2.1, s.2.modified || p.2.2, s.2.warns⟩

/-- The output disposition of `process_files` for one file: write when
modified, copy when the output path differs, else skip (in-place). -/
inductive WriteAction where
  | write
  | copy
  | skip
deriving DecidableEq, Repr

/-- `if file_was_modified: write / elif file_path != output_path: copy /
else: skip`. -/
def writeDecision (inPlace modified : Bool) : WriteAction :=
  if modified then .write else if !inPlace then .copy else .skip

/-- One file as the walker sees it: `content` is `none` when reading or
decoding it raises, and `writeOk` is false when writing it raises. -/
structure FileInput where
  content : Option (List (List Char))
  writeOk : Bool
deriving DecidableEq, Repr

/-- The three run-level counters of `process_files`. -/
structure Counters where
  filesModified : Nat
  repls : Nat
  toggles : Nat
deriving DecidableEq, Repr

/-- What happened to one file during the run. -/
inductive FileOutcome where
  | readFailed
  | written
  | writeFailed
  | copied
  | skipped
deriving DecidableEq, Repr

/-- The loop body of `process_files` for one file, with the source's
ordering: a read/decode failure is caught before anything is counted;
otherwise both passes run and their toggle/replacement counts — and, for
a modified file, the modified-file increment — are applied to the
run-level counters before the write is attempted, so a write failure is
caught only after the counters already include the file. -/
def processOne (data : ValueMap) (inPlace : Bool) (c : Counters) (f : FileInput) :
    Counters × FileOutcome :=
  match f.content with
  | none => (c, .readFailed)
  | some lines =>
    let r := processFile data lines
    let c1 : Counters := ⟨c.filesModified, c.repls + r.repls, c.toggles + r.toggles⟩
    if r.modified then
      let c2 : Counters := ⟨c1.filesModified + 1, c1.repls, c1.toggles⟩
      if f.writeOk then (c2, .written) else (c2, .writeFailed)
    else if !inPlace then (c1, .copied) else (c1, .skipped)

/-- The walker's fold over all files. -/
def processFilesGo (data : ValueMap) (inPlace : Bool) (c : Counters) :
    List FileInput → Counters × List FileOutcome
  | [] => (c, [])
  | f :: rest =>
    let s := processOne data inPlace c f
    let r := processFilesGo data inPlace s.1 rest
    (r.1, s.2 :: r.2)

/-- `process_files` over a directory, modelled as the ordered list of its
regular files; counters start at zero each invocation. -/
def process_files (data : ValueMap) (inPlace : Bool) (fs : List FileInput) :
    Counters × List FileOutcome :=
  processFilesGo data inPlace ⟨0, 0, 0⟩ fs

/-- One data source as `load_and_merge_data` sees it: whether the path is a
file, and the parse result (`none` models a `yaml.YAMLError`). -/
structure DataSource where
  isFile : Bool
  parsed : Option Value
deriving DecidableEq, Repr

/-- The loader's failure modes: `FileNotFoundError` for a missing source and
`ValueError` for unparseable YAML or a non-dict root. -/
inductive LoadError where
  | sourceNotFound
  | invalidYaml
  | notAMapping
deriving DecidableEq, Repr

/-- The loop of `load_and_merge_data`: sources in order; a missing path or a
parse error aborts; a parsed root is merged only when it is a dict, is
rejected when it is truthy but not a dict, and is silently skipped when
it is falsy (`if current_data:`). -/
def loadLoop (acc : ValueMap) : List DataSource → Except LoadError ValueMap
  | [] => .ok acc
  | s :: rest =>
    if !s.isFile then .error .sourceNotFound
    else
      match s.parsed with
      | none => .error .invalidYaml
      | some v =>
        if pyTruthy v then
          match v with
          | .map m => loadLoop (deep_merge acc m) rest
          | _ => .error .notAMapping
        else loadLoop acc rest

/-- `load_and_merge_data`, starting from an empty accumulator. -/
def load_and_merge_data (srcs : List DataSource) : Except LoadError ValueMap :=
  loadLoop .nil srcs

/-- `main`'s sequencing: the data is loaded and merged before
`process_files` runs, so a loader error stops the run before any file is
touched. -/
def runModel (srcs : List DataSource) (inPlace : Bool) (fs : List FileInput) :
    Except LoadError (Counters × List FileOutcome) :=
  match load_and_merge_data srcs with
  | .error e => .error e
  | .ok data => .ok (process_files data inPlace fs)

/-- `match rest with …` after the removed `#`: at most one directly
following whitespace character is also removed. -/
def dropOneWs : List Char → List Char
  | [] => []
  | c :: r => if pyIsSpace c then r else c :: r

/-- The maximal whitespace run at the end of a string (the `\s*` part of the
leftmost `\s*#.*` match backs up over exactly this run). -/
def trailingWs (l : List Char) : List Char :=
  (l.reverse.takeWhile pyIsSpace).reverse

/- Concrete data and files used by witnesses and counterexamples. -/

/-- Data `{o: false, i: true}` for the nested-section scenario. -/
def exDataNested : ValueMap :=
  vmap [("o".data, .bool false), ("i".data, .bool true)]

/-- A file with an inner section `i` nested inside an outer section `o`. -/
def exFileNested : List (List Char) :=
  [ "# @section o begin".data ++ [nlc],
    "# @section i begin".data ++ [nlc],
    "key: 1".data ++ [nlc],
    "# @section i end".data ++ [nlc],
    "other: 2".data ++ [nlc],
    "# @section o end".data ++ [nlc] ]

/-- Data `{s: true}` for the rerun scenario. -/
def exDataTrue : ValueMap := vmap [("s".data, .bool true)]

/-- A doubly-commented line inside a section whose value resolves true. -/
def exFileDoubleHash : List (List Char) :=
  [ "# @section s begin".data ++ [nlc],
    "## foo".data ++ [nlc],
    "# @section s end".data ++ [nlc] ]

/-- Data `{a: true, b: true}` for the mismatched-end scenario. -/
def exDataAB : ValueMap :=
  vmap [("a".data, .bool true), ("b".data, .bool true)]

/-- Open `a`, hit `@section b end`, a plain line, then the real `a` end. -/
def exFileMismatch : List (List Char) :=
  [ "# @section a begin".data ++ [nlc],
    "# @section b end".data ++ [nlc],
    "x: 1".data ++ [nlc],
    "# @section a end".data ++ [nlc] ]

/-- Data `{s: false}` for a file that toggles one line. -/
def exDataFalse : ValueMap := vmap [("s".data, .bool false)]

/-- A file whose single plain line gets commented under `{s: false}`. -/
def exFileToggle : List (List Char) :=
  [ "# @section s begin".data ++ [nlc],
    "x: 1".data ++ [nlc],
    "# @section s end".data ++ [nlc] ]

/-- Data `{a: null}`: every segment of path `a` resolves, the leaf is null. -/
def exDataNull : ValueMap := vmap [("a".data, .null)]

/-- Merge example `A = {x: {a: 1, b: 2}}`. -/
def exMergeA : ValueMap :=
  vmap [("x".data, .map (vmap [("a".data, .int 1), ("b".data, .int 2)]))]

/-- Merge example `B = {x: {b: 3}}`. -/
def exMergeB : ValueMap :=
  vmap [("x".data, .map (vmap [("b".data, .int 3)]))]

/-! ## Helper lemmas -/

theorem assocLookup_setKey : (t : ValueMap) → (k : List Char) → (v : Value) →
    assocLookup (setKey t k v) k = some v
  | .nil, k, v => by simp [setKey, assocLookup]
  | .cons k' v' rest, k, v => by
    by_cases h : k' = k
    · simp [setKey, assocLookup, h]
    · simp [setKey, assocLookup, h, assocLookup_setKey rest k v]

theorem dropWhile_space_append (ws l : List Char) (h : ∀ c ∈ ws, pyIsSpace c = true) :
    (ws ++ l).dropWhile pyIsSpace = l.dropWhile pyIsSpace := by
  induction ws with
  | nil => rfl
  | cons c tl ih =>
    have hc : pyIsSpace c = true := h c (List.mem_cons_self c tl)
    have htl : ∀ x ∈ tl, pyIsSpace x = true := fun x hx => h x (List.mem_cons_of_mem c hx)
    simp [List.dropWhile_cons, hc, ih htl]

theorem lstrip_space_append (ws l : List Char) (h : ∀ c ∈ ws, pyIsSpace c = true) :
    lstrip (ws ++ l) = lstrip l :=
  dropWhile_space_append ws l h

theorem takeWhile_space_append (ws : List Char) (c : Char) (l : List Char)
    (h : ∀ x ∈ ws, pyIsSpace x = true) (hc : pyIsSpace c = false) :
    ((ws ++ c :: l).takeWhile pyIsSpace) = ws := by
  induction ws with
  | nil => simp [List.takeWhile_cons, hc]
  | cons x tl ih =>
    have hx : pyIsSpace x = true := h x (List.mem_cons_self x tl)
    have htl : ∀ y ∈ tl, pyIsSpace y = true := fun y hy => h y (List.mem_cons_of_mem x hy)
    simp [List.takeWhile_cons, hx, ih htl]

theorem space_ne_hash {c : Char} (h : pyIsSpace c = true) : c ≠ '#' := by
  intro he
  rw [he] at h
  exact absurd h (by decide)

theorem subHashOnce_space_append (ws rest : List Char)
    (h : ∀ c ∈ ws, pyIsSpace c = true) :
    subHashOnce (ws ++ '#' :: rest) = ws ++ dropOneWs rest := by
  induction ws with
  | nil =>
    cases rest with
    | nil => rfl
    | cons c r => simp [subHashOnce, dropOneWs]
  | cons c tl ih =>
    have hc : pyIsSpace c = true := h c (List.mem_cons_self c tl)
    have htl : ∀ x ∈ tl, pyIsSpace x = true := fun x hx => h x (List.mem_cons_of_mem c hx)
    have hne : c ≠ '#' := space_ne_hash hc
    simp [subHashOnce, hne, ih htl]

theorem getLast?_append_one (l : List Char) (c : Char) :
    (l ++ [c]).getLast? = some c := by
  induction l with
  | nil => rfl
  | cons x tl ih =>
    cases h : tl ++ [c] with
    | nil => exact absurd (congrArg List.length h) (by simp)
    | cons y ys =>
      show (x :: (tl ++ [c])).getLast? = some c
      rw [h]
      rw [List.getLast?_cons_cons]
      rw [← h, ih]

/-! ## C2: deep merge is left-to-right with leaf-level override -/

/-- C2.  Merging a single-entry source `{k: v}` into a target: when both the
existing and incoming values at `k` are mappings they are merged
recursively; otherwise the incoming value replaces the existing one
outright; and the concrete example `A = {x: {a: 1, b: 2}}`,
`B = {x: {b: 3}}` merges to `x = {a: 1, b: 3}`. -/
theorem C2_deep_merge_override (t : ValueMap) (k : List Char) (v : Value) :
    (∀ m tm, v = .map m → assocLookup t k = some (.map tm) →
      assocLookup (deep_merge t (.cons k v .nil)) k = some (.map (deep_merge tm m)))
    ∧ (∀ m w, v = .map m → assocLookup t k = some w → (∀ x, w ≠ .map x) →
      assocLookup (deep_merge t (.cons k v .nil)) k = some (.map m))
    ∧ ((∀ m, v ≠ .map m) →
      assocLookup (deep_merge t (.cons k v .nil)) k = some v)
    ∧ deep_merge exMergeA exMergeB
      = vmap [("x".data, .map (vmap [("a".data, .int 1), ("b".data, .int 3)]))] := by
  refine ⟨?_, ?_, ?_, by decide⟩
  · intro m tm hv ht
    subst hv
    simp [deep_merge, ht, assocLookup_setKey]
  · intro m w hv ht hw
    subst hv
    cases w with
    | map x => exact absurd rfl (hw x)
    | null => simp [deep_merge, ht, assocLookup_setKey]
    | bool b => simp [deep_merge, ht, assocLookup_setKey]
    | int n => simp [deep_merge, ht, assocLookup_setKey]
    | str s => simp [deep_merge, ht, assocLookup_setKey]
    | list xs => simp [deep_merge, ht, assocLookup_setKey]
  · intro hv
    cases v with
    | map m => exact absurd rfl (hv m)
    | null => simp [deep_merge, assocLookup_setKey]
    | bool b => simp [deep_merge, assocLookup_setKey]
    | int n => simp [deep_merge, assocLookup_setKey]
    | str s => simp [deep_merge, assocLookup_setKey]
    | list xs => simp [deep_merge, assocLookup_setKey]

/-- Witness for C2 at the concrete merge example: both `A` and `B` hold
mappings at `x`, so they merge recursively. -/
theorem C2_witness :
    assocLookup (deep_merge exMergeA (.cons "x".data
        (.map (vmap [("b".data, .int 3)])) .nil)) "x".data
      = some (.map (deep_merge (vmap [("a".data, .int 1), ("b".data, .int 2)])
          (vmap [("b".data, .int 3)]))) :=
  (C2_deep_merge_override exMergeA "x".data
      (.map (vmap [("b".data, .int 3)]))).1
    (vmap [("b".data, .int 3)]) (vmap [("a".data, .int 1), ("b".data, .int 2)])
    rfl (by decide)

/-! ## C4: the value formatter and its own output -/

/-- C4 counterexample.  The formatter is not idempotent on its own output
for every input value: `True` formats to `true`, and formatting the
produced string `"true"` wraps it in double quotes instead of returning
it unchanged. -/
theorem C4_counterexample :
    format_value_for_file (Value.bool true) = "true".data
    ∧ format_value_for_file (Value.str "true".data) ≠ "true".data :=
  ⟨rfl, by decide⟩

theorem wrappedIn_wrap (c : Char) (s : List Char) :
    wrappedIn c (c :: s ++ [c]) = true := by
  have h1 : (c :: s ++ [c]).getLast? = some c := getLast?_append_one (c :: s) c
  unfold wrappedIn
  rw [h1]
  simp

/-- C4 amended.  The formatter is idempotent on the output it produces for
*string* inputs: a string already wrapped in a matching pair of double
or single quotes is returned unchanged, an unquoted string comes back
wrapped in double quotes, and refeeding the produced string returns it
unchanged.  (For non-string values the produced text, refed as a string,
is wrapped again — see the counterexample.) -/
theorem C4_format_idempotent_on_strings (s : List Char) :
    format_value_for_file (.str (format_value_for_file (.str s)))
      = format_value_for_file (.str s)
    ∧ ((wrappedIn dq s || wrappedIn sq s) = true →
        format_value_for_file (.str s) = s)
    ∧ ((wrappedIn dq s || wrappedIn sq s) = false →
        format_value_for_file (.str s) = dq :: s ++ [dq]) := by
  by_cases h : (wrappedIn dq s || wrappedIn sq s) = true
  · exact ⟨by simp [format_value_for_file, h], fun _ => by simp [format_value_for_file, h],
      fun hf => absurd h (by simp [hf])⟩
  · have h' : (wrappedIn dq s || wrappedIn sq s) = false := by
      simpa using h
    have hfmt : format_value_for_file (.str s) = dq :: s ++ [dq] := by
      simp [format_value_for_file, h']
    refine ⟨?_, fun ht => absurd ht h, fun _ => hfmt⟩
    rw [hfmt]
    have hw : (wrappedIn dq (dq :: s ++ [dq]) || wrappedIn sq (dq :: s ++ [dq])) = true := by
      rw [wrappedIn_wrap dq s]
      simp
    show format_value_for_file (.str (dq :: s ++ [dq])) = dq :: s ++ [dq]
    simp only [format_value_for_file]
    rw [hw]
    simp

/-- Witness for C4 at `s = "foo"`: unquoted, so it comes back wrapped in
double quotes. -/
theorem C4_witness :
    (wrappedIn dq "foo".data || wrappedIn sq "foo".data) = false
    ∧ format_value_for_file (.str "foo".data) = dq :: "foo".data ++ [dq] :=
  ⟨by decide, (C4_format_idempotent_on_strings "foo".data).2.2 (by decide)⟩

/-! ## C8: data loader failure modes -/

/-- C8 counterexample.  A source whose parsed root is `false` — not a
mapping — raises no format error: `if current_data:` is false, so the
source is silently skipped and the run goes on to touch files. -/
theorem C8_counterexample :
    load_and_merge_data [⟨true, some (Value.bool false)⟩] = .ok .nil
    ∧ runModel [⟨true, some (Value.bool false)⟩] true [⟨some [], true⟩]
        = .ok (⟨0, 0, 0⟩, [.skipped]) :=
  ⟨rfl, rfl⟩

/-- C8 amended.  The loader fails with a not-found error for a missing
source, with an invalid-YAML error for an unparseable one, and with a
format error for a source whose parsed root is *truthy* and not a
mapping (a falsy root — null, `false`, `0`, an empty string, list or
dict — is silently skipped); on a loader error the run stops before any
file is touched. -/
theorem C8_loader_errors (acc : ValueMap) (src : DataSource)
    (rest srcs : List DataSource) (v : Value) (inPlace : Bool)
    (fs : List FileInput) (e : LoadError) :
    (src.isFile = false → loadLoop acc (src :: rest) = .error .sourceNotFound)
    ∧ (src.isFile = true → src.parsed = none →
        loadLoop acc (src :: rest) = .error .invalidYaml)
    ∧ (src.isFile = true → src.parsed = some v → pyTruthy v = true →
        (∀ m, v ≠ .map m) → loadLoop acc (src :: rest) = .error .notAMapping)
    ∧ (load_and_merge_data srcs = .error e → runModel srcs inPlace fs = .error e) := by
  refine ⟨?_, ?_, ?_, ?_⟩
  · intro h
    simp [loadLoop, h]
  · intro h hp
    simp [loadLoop, h, hp]
  · intro h hp ht hm
    cases v with
    | map m => exact absurd rfl (hm m)
    | null => simp [pyTruthy] at ht
    | bool b => simp [loadLoop, h, hp, ht]
    | int n => simp [loadLoop, h, hp, ht]
    | str s => simp [loadLoop, h, hp, ht]
    | list xs => simp [loadLoop, h, hp, ht]
  · intro h
    simp [runModel, h]

/-- Witness for C8: a source parsing to the non-empty list `[1]` (truthy,
not a mapping) raises the format error. -/
theorem C8_witness :
    pyTruthy (.list (vlist [.int 1])) = true
    ∧ loadLoop .nil [⟨true, some (.list (vlist [.int 1]))⟩] = .error .notAMapping :=
  ⟨by decide,
   (C8_loader_errors .nil ⟨true, some (.list (vlist [.int 1]))⟩ [] []
      (.list (vlist [.int 1])) true [] .notAMapping).2.2.1 rfl rfl (by decide)
      (fun m h => by cases h)⟩

/-! ## C9: a null leaf behaves like an absent path -/

/-- C9 counterexample.  For data `{a: null}` every segment of path `a`
resolves and the leaf is null; `get_value_by_path` returns the absent
result, but the warning flag is `false`: the lookup warns only in its
exception branch, so the directive is skipped *silently*, not with a
warning as claimed. -/
theorem C9_counterexample :
    pathLoop (.map exDataNull) (splitOnDot "a".data) = some Value.null
    ∧ getValueByPath exDataNull "a".data = (none, false) :=
  ⟨rfl, rfl⟩

/-- C9 amended.  A dotted path whose every segment resolves but whose leaf
is null is indistinguishable from an absent path: `get_value_by_path`
returns `None` for it — though without logging the path-not-found
warning, since traversal succeeded — so a `@param` directive naming such
a path never fires and the target line is left unchanged: a null data
value can never be injected into a line. -/
theorem C9_null_leaf_skipped (data : ValueMap) (path : List Char)
    (h : pathLoop (.map data) (splitOnDot path) = some .null) :
    getValueByPath data path = (none, false)
    ∧ (∀ dir target, searchParam dir = some path →
        paramStep data dir target = none)
    ∧ (∀ dir target rest, searchParam dir = some path →
        (paramGo data (dir :: target :: rest)).1
          = dir :: (paramGo data (target :: rest)).1) := by
  have hg : getValueByPath data path = (none, false) := by
    simp [getValueByPath, h]
  refine ⟨hg, ?_, ?_⟩
  · intro dir target hd
    simp [paramStep, hd, hg]
  · intro dir target rest hd
    have hn : paramStep data dir target = none := by simp [paramStep, hd, hg]
    simp [paramGo, hn]

/-- Witness for C9: data `{a: null}`, path `a`, a concrete `@param a`
directive line. -/
theorem C9_witness :
    getValueByPath exDataNull "a".data = (none, false)
    ∧ paramStep exDataNull ("# @param a".data ++ [nlc]) ("a: 1".data ++ [nlc]) = none :=
  ⟨(C9_null_leaf_skipped exDataNull "a".data rfl).1,
   (C9_null_leaf_skipped exDataNull "a".data rfl).2.1 _ _ (by decide)⟩

/-! ## C7: per-file error recovery -/

/-- C7 counterexample.  A run over a single file whose write raises: the
passes counted one toggle and the modified-file increment before the
write was attempted, so the run-level counters end at `(1, 0, 1)` —
affected by the failing file, contrary to the claim. -/
theorem C7_counterexample :
    process_files exDataFalse true [⟨some exFileToggle, false⟩]
      = (⟨1, 0, 1⟩, [.writeFailed])
    ∧ (⟨1, 0, 1⟩ : Counters) ≠ ⟨0, 0, 0⟩ :=
  ⟨rfl, by decide⟩

/-- C7 amended.  A read/decode failure is recovered exactly as claimed: the
file is skipped, the run continues with the remaining files, and the
counters are unaffected by it.  A write failure is also recovered and
the run continues, but the failing file's toggles, replacements and
modified-file increment remain in the totals, because `process_files`
updates the counters before attempting the write. -/
theorem C7_read_failure_recovered (data : ValueMap) (inPlace : Bool)
    (c : Counters) (b : Bool) (ls : List (List Char)) (rest : List FileInput) :
    processFilesGo data inPlace c (⟨none, b⟩ :: rest)
      = ((processFilesGo data inPlace c rest).1,
         .readFailed :: (processFilesGo data inPlace c rest).2)
    ∧ (processFilesGo data inPlace c (⟨some ls, false⟩ :: rest)).1
      = (processFilesGo data inPlace c (⟨some ls, true⟩ :: rest)).1 := by
  constructor
  · simp [processFilesGo, processOne]
  · have h1 : (processOne data inPlace c ⟨some ls, false⟩).1
        = (processOne data inPlace c ⟨some ls, true⟩).1 := by
      simp only [processOne]
      split <;> simp
    simp only [processFilesGo]
    rw [h1]

/-! ## C5: a mismatched end-marker leaves the stack unchanged -/

/-- C5.  An end-marker whose key differs from the innermost open frame's key
(or that arrives on an empty stack) leaves the whole state unchanged
except for one warning: same stack, same counters, line untouched.
Concretely, after opening `a` and hitting `@section b end`, `a` is still
the open frame; the full pass over that file ends with an empty stack
(the later matching end-marker still closes `a`), exactly one warning,
and every line unchanged. -/
theorem C5_mismatched_end (data : ValueMap) (st : SecState) (line k : List Char)
    (hb : searchSectionBegin line = none)
    (he : searchSectionEnd line = some k)
    (hm : ∀ top rest, st.stack = top :: rest → top.key ≠ k) :
    sectionStep data st line = ({ st with warns := st.warns + 1 }, line)
    ∧ (sectionGo exDataAB ⟨[], 0, false, 0⟩ (exFileMismatch.take 2)).2.stack
        = [⟨"a".data, false⟩]
    ∧ (sectionPass exDataAB exFileMismatch).2 = ⟨[], 0, false, 1⟩
    ∧ (sectionPass exDataAB exFileMismatch).1 = exFileMismatch := by
  refine ⟨?_, by decide, by decide, by decide⟩
  cases hs : st.stack with
  | nil => simp [sectionStep, lineUpdate, markerUpdate, hb, he, hs]
  | cons top rest =>
    have hk : top.key ≠ k := hm top rest hs
    simp [sectionStep, lineUpdate, markerUpdate, hb, he, hs, hk]

/-- Witness for C5: stack holding open frame `a`, end-marker for `b`. -/
theorem C5_witness :
    searchSectionEnd ("# @section b end".data ++ [nlc]) = some "b".data
    ∧ sectionStep exDataAB ⟨[⟨"a".data, false⟩], 0, false, 0⟩
        ("# @section b end".data ++ [nlc])
      = (⟨[⟨"a".data, false⟩], 0, false, 1⟩, "# @section b end".data ++ [nlc]) :=
  ⟨by decide,
   (C5_mismatched_end exDataAB ⟨[⟨"a".data, false⟩], 0, false, 0⟩
      ("# @section b end".data ++ [nlc]) "b".data (by decide) (by decide)
      (by intro top rest h; cases h; decide)).1⟩

/-! ## C6: uncommenting strips one `#` and at most one space -/

theorem dropOneWs_ne_hash_cons (rest : List Char) : dropOneWs rest ≠ '#' :: rest := by
  intro h
  have hl := congrArg List.length h
  cases rest with
  | nil => simp [dropOneWs] at hl
  | cons c r =>
    by_cases hc : pyIsSpace c = true
    · simp [dropOneWs, hc] at hl
      omega
    · simp [dropOneWs, hc] at hl

/-- C6.  Under an innermost frame whose policy is "should not be commented",
a comment-prefixed non-marker line (leading whitespace, then `#`) is
uncommented by removing exactly that one `#` and at most one directly
following whitespace character — unless the uncommented text starts with
`@param` or `@section`, in which case the line is left fully unchanged
and nothing is counted.  When the strip does happen the text always
differs, and exactly one toggle is counted for it. -/
theorem C6_uncomment_strips_one_hash (data : ValueMap) (k : List Char)
    (outer : List Frame) (tog : Nat) (mod : Bool) (w : Nat) (ws rest : List Char)
    (hws : ∀ c ∈ ws, pyIsSpace c = true)
    (hb : searchSectionBegin (ws ++ '#' :: rest) = none)
    (he : searchSectionEnd (ws ++ '#' :: rest) = none) :
    subHashOnce (ws ++ '#' :: rest) = ws ++ dropOneWs rest
    ∧ (("@param".data.isPrefixOf (lstrip (dropOneWs rest))
        || "@section".data.isPrefixOf (lstrip (dropOneWs rest))) = false →
       sectionStep data ⟨⟨k, false⟩ :: outer, tog, mod, w⟩ (ws ++ '#' :: rest)
         = (⟨⟨k, false⟩ :: outer, tog + 1, true, w⟩, ws ++ dropOneWs rest)
       ∧ ws ++ dropOneWs rest ≠ ws ++ '#' :: rest)
    ∧ (("@param".data.isPrefixOf (lstrip (dropOneWs rest))
        || "@section".data.isPrefixOf (lstrip (dropOneWs rest))) = true →
       sectionStep data ⟨⟨k, false⟩ :: outer, tog, mod, w⟩ (ws ++ '#' :: rest)
         = (⟨⟨k, false⟩ :: outer, tog, mod, w⟩, ws ++ '#' :: rest)) := by
  have hsub : subHashOnce (ws ++ '#' :: rest) = ws ++ dropOneWs rest :=
    subHashOnce_space_append ws rest hws
  have hnsp : pyIsSpace '#' = false := by decide
  have hcom : isCommented (ws ++ '#' :: rest) = true := by
    unfold isCommented
    rw [show lstrip (ws ++ '#' :: rest) = lstrip ('#' :: rest) from
      lstrip_space_append ws ('#' :: rest) hws]
    simp [lstrip, List.dropWhile_cons, hnsp]
  have hunc2 : lstrip (ws ++ dropOneWs rest) = lstrip (dropOneWs rest) :=
    lstrip_space_append ws (dropOneWs rest) hws
  have hne : ws ++ dropOneWs rest ≠ ws ++ '#' :: rest := fun h =>
    dropOneWs_ne_hash_cons rest (List.append_cancel_left h)
  refine ⟨hsub, ?_, ?_⟩
  · intro hg
    refine ⟨?_, hne⟩
    simp [sectionStep, lineUpdate, markerUpdate, hb, he, transformLine, hcom, hsub, hunc2, hne, hg]
  · intro hg
    simp [sectionStep, lineUpdate, markerUpdate, hb, he, transformLine, hcom, hsub, hunc2, hg]

/-- Witness for C6 at line `"  # foo\n"`: the `#` and one following space
are removed, and one toggle is counted. -/
theorem C6_witness :
    sectionStep exDataTrue ⟨[⟨"s".data, false⟩], 0, false, 0⟩
        ("  ".data ++ '#' :: (" foo".data ++ [nlc]))
      = (⟨[⟨"s".data, false⟩], 1, true, 0⟩, "  ".data ++ dropOneWs (" foo".data ++ [nlc])) :=
  ((C6_uncomment_strips_one_hash exDataTrue "s".data [] 0 false 0
      "  ".data (" foo".data ++ [nlc]) (by decide) (by decide) (by decide)).2.1
    (by decide)).1

/-! ## C1: the innermost frame governs a line inside nested sections -/

/-- C1 counterexample.  With data `{o: false, i: true}` and the nested file,
the plain line inside the inner (true) section is *not* commented in the
pass's output: the innermost active frame governs it, and that frame's
policy is "should not be commented". -/
theorem C1_counterexample :
    (sectionPass exDataNested exFileNested).1.get? 2 = some ("key: 1".data ++ [nlc])
    ∧ isCommented ("key: 1".data ++ [nlc]) = false :=
  ⟨rfl, by decide⟩

/-- C1 amended.  A begin-marker whose path resolves to boolean true pushes a
frame with `should_be_commented = false`; a non-marker, non-commented
line under such an innermost frame is left unchanged (whatever outer
frames lie below), with no toggle counted and the stack untouched.  The
outer false section's policy applies to the lines it governs directly:
in the concrete nested file the inner line stays uncommented while the
plain line after the inner section closes is commented. -/
theorem C1_innermost_frame_governs (data : ValueMap) (ik p : List Char)
    (outer : List Frame) (tog : Nat) (mod : Bool) (w : Nat) (line : List Char)
    (hb : searchSectionBegin line = none)
    (he : searchSectionEnd line = none)
    (hc : isCommented line = false) :
    ((getValueByPath data p).1 = some (.bool true) →
      isFalseValue (getValueByPath data p).1 = false)
    ∧ sectionStep data ⟨⟨ik, false⟩ :: outer, tog, mod, w⟩ line
        = (⟨⟨ik, false⟩ :: outer, tog, mod, w⟩, line)
    ∧ (sectionPass exDataNested exFileNested).1
        = [ "# @section o begin".data ++ [nlc],
            "# @section i begin".data ++ [nlc],
            "key: 1".data ++ [nlc],
            "# @section i end".data ++ [nlc],
            "# other: 2".data ++ [nlc],
            "# @section o end".data ++ [nlc] ] := by
  refine ⟨?_, ?_, by decide⟩
  · intro h
    rw [h]
    rfl
  · simp [sectionStep, lineUpdate, markerUpdate, hb, he, transformLine, hc]

/-- Witness for C1: the inner path `i` resolves true, and the plain line
`"key: 1\n"` under the inner frame (outer `o` frame below it) is left
unchanged with no toggle. -/
theorem C1_witness :
    (getValueByPath exDataNested "i".data).1 = some (.bool true)
    ∧ isFalseValue (getValueByPath exDataNested "i".data).1 = false
    ∧ sectionStep exDataNested ⟨[⟨"i".data, false⟩, ⟨"o".data, true⟩], 0, false, 0⟩
        ("key: 1".data ++ [nlc])
      = (⟨[⟨"i".data, false⟩, ⟨"o".data, true⟩], 0, false, 0⟩, "key: 1".data ++ [nlc]) :=
  ⟨by decide,
   (C1_innermost_frame_governs exDataNested "i".data "i".data [⟨"o".data, true⟩]
      0 false 0 ("key: 1".data ++ [nlc]) (by decide) (by decide) (by decide)).1
     (by decide),
   (C1_innermost_frame_governs exDataNested "i".data "i".data [⟨"o".data, true⟩]
      0 false 0 ("key: 1".data ++ [nlc]) (by decide) (by decide) (by decide)).2.1⟩

/-! ## C3: rerunning the engine on its own output -/

theorem transformLine_toggle_ne (f : Frame) (line : List Char)
    (h : (transformLine f line).2 = true) : (transformLine f line).1 ≠ line := by
  by_cases hA : (f.shouldBeCommented && !isCommented line && !isBlank line) = true
  · by_cases hC : commentLine line ≠ line
    · simp [transformLine, hA, hC]
    · simp [transformLine, hA, hC] at h
  · by_cases hB : (!f.shouldBeCommented && isCommented line) = true
    · by_cases hG : ("@param".data.isPrefixOf (lstrip (subHashOnce line))
          || "@section".data.isPrefixOf (lstrip (subHashOnce line))) = true
      · simp [transformLine, hA, hB, hG] at h
      · by_cases hC : subHashOnce line ≠ line
        · simp [transformLine, hA, hB, hG, hC]
        · simp [transformLine, hA, hB, hG, hC] at h
    · simp [transformLine, hA, hB] at h

theorem markerUpdate_counters (data : ValueMap) (bM eM : Option (List Char))
    (st : SecState) :
    (markerUpdate data bM eM st).toggles = st.toggles
    ∧ (markerUpdate data bM eM st).modified = st.modified := by
  unfold markerUpdate
  cases bM with
  | some k => exact ⟨rfl, rfl⟩
  | none =>
    cases eM with
    | none => exact ⟨rfl, rfl⟩
    | some k =>
      cases hs : st.stack with
      | nil => exact ⟨rfl, rfl⟩
      | cons top rest =>
        by_cases hk : top.key = k
        · simp [hk]
        · simp [hk]

theorem lineUpdate_self (st : SecState) (m : Bool) (line : List Char)
    (h : (lineUpdate st m line).1 = line) : (lineUpdate st m line).2 = st := by
  obtain ⟨stk, tog, mo, w⟩ := st
  cases stk with
  | nil => rfl
  | cons f tl =>
    by_cases hm : m = true
    · simp [lineUpdate, hm]
    · by_cases ht : (transformLine f line).2 = true
      · exact absurd (by simpa [lineUpdate, hm, ht] using h)
          (transformLine_toggle_ne f line ht)
      · simp [lineUpdate, hm, ht]

theorem sectionStep_self (data : ValueMap) (st : SecState) (line : List Char)
    (h : (sectionStep data st line).2 = line) :
    (sectionStep data st line).1.toggles = st.toggles
    ∧ (sectionStep data st line).1.modified = st.modified := by
  have h1 : (lineUpdate st
      ((searchSectionBegin line).isSome || (searchSectionEnd line).isSome) line).1
      = line := h
  have h2 := lineUpdate_self st _ line h1
  have e : (sectionStep data st line).1
      = markerUpdate data (searchSectionBegin line) (searchSectionEnd line)
          (lineUpdate st
            ((searchSectionBegin line).isSome || (searchSectionEnd line).isSome)
            line).2 := rfl
  rw [e, h2]
  exact markerUpdate_counters data _ _ st

theorem sectionGo_self (data : ValueMap) :
    ∀ (ls : List (List Char)) (st : SecState),
      (sectionGo data st ls).1 = ls →
      (sectionGo data st ls).2.toggles = st.toggles
      ∧ (sectionGo data st ls).2.modified = st.modified
  | [], _ => fun _ => ⟨rfl, rfl⟩
  | l :: rest, st => fun h => by
    have h' : (sectionStep data st l).2
        :: (sectionGo data (sectionStep data st l).1 rest).1 = l :: rest := h
    have h1 : (sectionStep data st l).2 = l := (List.cons.inj h').1
    have h2 : (sectionGo data (sectionStep data st l).1 rest).1 = rest :=
      (List.cons.inj h').2
    have hs := sectionStep_self data st l h1
    have ih := sectionGo_self data rest (sectionStep data st l).1 h2
    have e : (sectionGo data st (l :: rest)).2
        = (sectionGo data (sectionStep data st l).1 rest).2 := rfl
    exact ⟨by rw [e, ih.1, hs.1], by rw [e, ih.2, hs.2]⟩

theorem paramGo_self (data : ValueMap) :
    ∀ (ls : List (List Char)),
      (paramGo data ls).1 = ls →
      (paramGo data ls).2.1 = 0 ∧ (paramGo data ls).2.2 = false
  | [] => fun _ => ⟨rfl, rfl⟩
  | [_] => fun _ => ⟨rfl, rfl⟩
  | dir :: target :: rest => fun h => by
    cases hp : paramStep data dir target with
    | none =>
      simp only [paramGo, hp] at h ⊢
      exact paramGo_self data (target :: rest) (List.cons.inj h).2
    | some nl =>
      by_cases hq : nl = target
      · simp only [paramGo, hp, hq] at h ⊢
        simp only [ne_eq, not_true_eq_false, if_neg, ite_false] at h ⊢
        exact paramGo_self data (target :: rest) (List.cons.inj h).2
      · simp only [paramGo, hp] at h
        rw [if_pos hq] at h
        exact absurd (List.cons.inj (List.cons.inj h).2).1 hq

/-- C3 counterexample.  Rerunning the engine on its own output with the same
data is not idempotent: with data `{s: true}`, the line `## foo` inside
the section loses one `#` per run (the first run emits `# foo`, and the
second run toggles it again to `foo`). -/
theorem C3_counterexample :
    (processFile exDataTrue exFileDoubleHash).lines
      = [ "# @section s begin".data ++ [nlc],
          "# foo".data ++ [nlc],
          "# @section s end".data ++ [nlc] ]
    ∧ (processFile exDataTrue (processFile exDataTrue exFileDoubleHash).lines).toggles = 1
    ∧ (processFile exDataTrue (processFile exDataTrue exFileDoubleHash).lines).modified
        = true :=
  ⟨rfl, rfl, rfl⟩

/-- C3 amended.  A file already fully reconciled with its data — the section
pass leaves every line unchanged and the parameter pass leaves every
line unchanged — reports zero section toggles and zero replacements,
its modified flag stays false, and in in-place mode the write decision
is to skip (no filesystem write).  Rerunning the engine on its own
output is *not* idempotent in general: uncommenting strips one `#`
layer per run (see the counterexample). -/
theorem C3_reconciled_file_noop (data : ValueMap) (lines : List (List Char))
    (h1 : (sectionPass data lines).1 = lines)
    (h2 : (paramGo data lines).1 = lines) :
    (processFile data lines).toggles = 0
    ∧ (processFile data lines).repls = 0
    ∧ (processFile data lines).modified = false
    ∧ writeDecision true (processFile data lines).modified = .skip := by
  have h1' : (sectionGo data ⟨[], 0, false, 0⟩ lines).1 = lines := h1
  have hs := sectionGo_self data lines ⟨[], 0, false, 0⟩ h1'
  have hp : paramGo data (sectionPass data lines).1 = paramGo data lines := by
    rw [show (sectionPass data lines).1 = lines from h1]
  have hpz := paramGo_self data lines h2
  have et : (processFile data lines).toggles = (sectionPass data lines).2.toggles := rfl
  have er : (processFile data lines).repls
      = (paramGo data (sectionPass data lines).1).2.1 := rfl
  have em : (processFile data lines).modified
      = ((sectionPass data lines).2.modified
          || (paramGo data (sectionPass data lines).1).2.2) := rfl
  have hm : (processFile data lines).modified = false := by
    rw [em, hp, hpz.2]
    have : (sectionPass data lines).2.modified = false := hs.2
    rw [this]
    rfl
  refine ⟨by rw [et]; exact hs.1, by rw [er, hp]; exact hpz.1, hm, by rw [hm]; rfl⟩

/-- Witness for C3 on a one-line file with empty data: both passes leave it
unchanged, so nothing is counted and in-place mode skips the write. -/
theorem C3_witness :
    (sectionPass .nil ["x: 1".data ++ [nlc]]).1 = ["x: 1".data ++ [nlc]]
    ∧ (paramGo .nil ["x: 1".data ++ [nlc]]).1 = ["x: 1".data ++ [nlc]]
    ∧ (processFile .nil ["x: 1".data ++ [nlc]]).toggles = 0
    ∧ writeDecision true (processFile .nil ["x: 1".data ++ [nlc]]).modified
        = .skip :=
  ⟨by decide, by decide,
   (C3_reconciled_file_noop .nil ["x: 1".data ++ [nlc]] (by decide) (by decide)).1,
   (C3_reconciled_file_noop .nil ["x: 1".data ++ [nlc]] (by decide) (by decide)).2.2.2⟩

/-! ## C10: the parameter pass preserves the trailing comment -/

theorem takeWhile_all (p : Char → Bool) : ∀ (l : List Char),
    (∀ x ∈ l, p x = true) → l.takeWhile p = l
  | [], _ => rfl
  | c :: tl, h => by
    have hc : p c = true := h c (List.mem_cons_self c tl)
    simp [List.takeWhile_cons, hc,
      takeWhile_all p tl (fun x hx => h x (List.mem_cons_of_mem c hx))]

theorem takeWhile_append_all (p : Char → Bool) : ∀ (xs ys : List Char),
    (∀ x ∈ xs, p x = true) → (xs ++ ys).takeWhile p = xs ++ ys.takeWhile p
  | [], _, _ => rfl
  | c :: tl, ys, h => by
    have hc : p c = true := h c (List.mem_cons_self c tl)
    simp [List.takeWhile_cons, hc,
      takeWhile_append_all p tl ys (fun x hx => h x (List.mem_cons_of_mem c hx))]

theorem takeWhile_append_stop (p : Char → Bool) (xs : List Char) (y : Char)
    (ys : List Char) (h : ∀ x ∈ xs, p x = true) (hy : p y = false) :
    (xs ++ y :: ys).takeWhile p = xs := by
  rw [takeWhile_append_all p xs (y :: ys) h]
  simp [List.takeWhile_cons, hy]

theorem takeWhile_append_of_stopped (p : Char → Bool) : ∀ (xs ys : List Char),
    (∃ x ∈ xs, p x = false) → (xs ++ ys).takeWhile p = xs.takeWhile p
  | [], _, h => by simp at h
  | c :: tl, ys, h => by
    by_cases hc : p c = true
    · have htl : ∃ x ∈ tl, p x = false := by
        obtain ⟨x, hx, hpx⟩ := h
        cases List.mem_cons.1 hx with
        | inl he => rw [he] at hpx; rw [hpx] at hc; cases hc
        | inr hm => exact ⟨x, hm, hpx⟩
      simp [List.takeWhile_cons, hc, takeWhile_append_of_stopped p tl ys htl]
    · have hc' : p c = false := by
        cases hpc : p c with
        | true => exact absurd hpc hc
        | false => rfl
      simp [List.takeWhile_cons, hc']

theorem takeWhile_append_one (p : Char → Bool) (xs : List Char) (c : Char)
    (hc : p c = false) : (xs ++ [c]).takeWhile p = xs.takeWhile p := by
  induction xs with
  | nil => simp [List.takeWhile_cons, hc]
  | cons x tl ih =>
    by_cases hx : p x = true
    · simp [List.takeWhile_cons, hx, ih]
    · have hx' : p x = false := by
        cases hpx : p x with
        | true => exact absurd hpx hx
        | false => rfl
      simp [List.takeWhile_cons, hx']

theorem dropWhile_append_all (p : Char → Bool) : ∀ (xs ys : List Char),
    (∀ x ∈ xs, p x = true) → (xs ++ ys).dropWhile p = ys.dropWhile p
  | [], _, _ => rfl
  | c :: tl, ys, h => by
    have hc : p c = true := h c (List.mem_cons_self c tl)
    simp [List.dropWhile_cons, hc,
      dropWhile_append_all p tl ys (fun x hx => h x (List.mem_cons_of_mem c hx))]

theorem dropWhile_append_stop (p : Char → Bool) (xs : List Char) (y : Char)
    (ys : List Char) (h : ∀ x ∈ xs, p x = true) (hy : p y = false) :
    (xs ++ y :: ys).dropWhile p = y :: ys := by
  rw [dropWhile_append_all p xs (y :: ys) h]
  simp [List.dropWhile_cons, hy]

theorem drop_takeWhile_length (p : Char → Bool) : ∀ (l : List Char),
    l.drop (l.takeWhile p).length = l.dropWhile p
  | [] => rfl
  | c :: tl => by
    by_cases hc : p c = true
    · simp [List.takeWhile_cons, List.dropWhile_cons, hc, drop_takeWhile_length p tl]
    · have hc' : p c = false := by
        cases hpc : p c with
        | true => exact absurd hpc hc
        | false => rfl
      simp [List.takeWhile_cons, List.dropWhile_cons, hc']

theorem trailingWs_all_space (l : List Char) (h : ∀ x ∈ l, pyIsSpace x = true) :
    trailingWs l = l := by
  unfold trailingWs
  rw [takeWhile_all pyIsSpace l.reverse (fun x hx => h x (List.mem_reverse.1 hx))]
  exact List.reverse_reverse l

theorem trailingWs_cons_not_space (c : Char) (A : List Char)
    (hc : pyIsSpace c = false) : trailingWs (c :: A) = trailingWs A := by
  unfold trailingWs
  rw [List.reverse_cons, takeWhile_append_one pyIsSpace A.reverse c hc]

theorem trailingWs_cons_of_not_all (c : Char) (A : List Char)
    (h : ∃ x ∈ A, pyIsSpace x = false) : trailingWs (c :: A) = trailingWs A := by
  unfold trailingWs
  rw [List.reverse_cons, takeWhile_append_of_stopped pyIsSpace A.reverse [c]
    (by obtain ⟨x, hx, hpx⟩ := h; exact ⟨x, List.mem_reverse.2 hx, hpx⟩)]

theorem dropWhile_eq_nil_all (p : Char → Bool) : ∀ (l : List Char),
    l.dropWhile p = [] → ∀ x ∈ l, p x = true
  | [], _, x, hx => absurd hx (List.not_mem_nil x)
  | c :: tl, h, x, hx => by
    by_cases hc : p c = true
    · rw [List.dropWhile_cons, if_pos hc] at h
      cases List.mem_cons.1 hx with
      | inl he => rw [he]; exact hc
      | inr hm => exact dropWhile_eq_nil_all p tl h x hm
    · rw [List.dropWhile_cons, if_neg hc] at h
      cases h

theorem dropWhile_head_false (p : Char → Bool) : ∀ (l : List Char) (y : Char)
    (ys : List Char), l.dropWhile p = y :: ys → p y = false
  | [], y, ys, h => by cases h
  | c :: tl, y, ys, h => by
    by_cases hc : p c = true
    · rw [List.dropWhile_cons, if_pos hc] at h
      exact dropWhile_head_false p tl y ys h
    · rw [List.dropWhile_cons, if_neg hc] at h
      cases h
      cases hpc : p c with
      | true => exact absurd hpc hc
      | false => rfl

theorem space_bne_hash {c : Char} (h : pyIsSpace c = true) : (c != '#') = true := by
  have : c ≠ '#' := space_ne_hash h
  simp [this]

theorem searchWsHash_first_hash : ∀ (vp : List Char), '#' ∈ vp →
    searchWsHash vp
      = some (trailingWs (vp.takeWhile (· != '#'))
          ++ '#' :: ((vp.dropWhile (· != '#')).tail.takeWhile (· != nlc)))
  | [], h => absurd h (List.not_mem_nil '#')
  | c :: rest, h => by
    have hps : pyIsSpace '#' = false := by decide
    by_cases hch : c = '#'
    · have e1 : ((c :: rest).takeWhile (· != '#')) = [] := by
        simp [List.takeWhile_cons, hch]
      have e2 : ((c :: rest).dropWhile (· != '#')) = c :: rest := by
        simp [List.dropWhile_cons, hch]
      rw [e1, e2]
      show searchWsHash (c :: rest) = _
      unfold searchWsHash
      have ht : (c :: rest).takeWhile pyIsSpace = [] := by
        simp [List.takeWhile_cons, hch, hps]
      have hx : wsHashAt (c :: rest)
          = some ('#' :: rest.takeWhile (· != nlc)) := by
        simp only [wsHashAt]
        rw [ht]
        simp [hch]
      rw [hx]
      simp [trailingWs, hch]
    · have hmem : '#' ∈ rest := by
        cases List.mem_cons.1 h with
        | inl he => exact absurd he.symm hch
        | inr hm => exact hm
      have hne : (c != '#') = true := by simp [hch]
      have e1 : (c :: rest).takeWhile (· != '#')
          = c :: rest.takeWhile (· != '#') := by
        simp [List.takeWhile_cons, hne]
      have e2 : (c :: rest).dropWhile (· != '#')
          = rest.dropWhile (· != '#') := by
        simp [List.dropWhile_cons, hne]
      by_cases hsp : pyIsSpace c = true
      · -- whitespace before the first '#': this position matches exactly
        -- when the whitespace run reaches the '#'
        cases hdw : rest.dropWhile pyIsSpace with
        | nil =>
          exfalso
          have := dropWhile_eq_nil_all pyIsSpace rest hdw '#' hmem
          rw [show pyIsSpace '#' = false from by decide] at this
          cases this
        | cons d tl' =>
          have hd' : pyIsSpace d = false := dropWhile_head_false pyIsSpace rest d tl' hdw
          have hsplit : rest.takeWhile pyIsSpace ++ d :: tl' = rest := by
            rw [← hdw]
            exact List.takeWhile_append_dropWhile pyIsSpace rest
          have hws' : ∀ x ∈ rest.takeWhile pyIsSpace, pyIsSpace x = true := by
            intro x hx
            exact List.mem_takeWhile_imp hx
          have hrun : (c :: rest).takeWhile pyIsSpace
              = c :: rest.takeWhile pyIsSpace := by
            simp [List.takeWhile_cons, hsp]
          have hdrop : (c :: rest).drop ((c :: rest).takeWhile pyIsSpace).length
              = d :: tl' := by
            rw [hrun]
            show rest.drop (rest.takeWhile pyIsSpace).length = d :: tl'
            rw [drop_takeWhile_length pyIsSpace rest, hdw]
          by_cases hdh : d = '#'
          · -- the run of whitespace reaches the first '#': match here
            have hx : wsHashAt (c :: rest)
                = some ((c :: rest.takeWhile pyIsSpace)
                    ++ '#' :: tl'.takeWhile (· != nlc)) := by
              simp only [wsHashAt]
              rw [hdrop]
              simp [hdh, hrun]
            have htk : rest.takeWhile (· != '#') = rest.takeWhile pyIsSpace := by
              conv_lhs => rw [← hsplit]
              rw [hdh] at hsplit ⊢
              exact takeWhile_append_stop _ _ '#' tl'
                (fun x hx => space_bne_hash (hws' x hx)) (by simp)
            have hdk : rest.dropWhile (· != '#') = '#' :: tl' := by
              conv_lhs => rw [← hsplit]
              rw [hdh]
              exact dropWhile_append_stop _ _ '#' tl'
                (fun x hx => space_bne_hash (hws' x hx)) (by simp)
            have htws : trailingWs (c :: rest.takeWhile (· != '#'))
                = c :: rest.takeWhile pyIsSpace := by
              rw [htk]
              exact trailingWs_all_space (c :: rest.takeWhile pyIsSpace)
                (by
                  intro x hx
                  cases List.mem_cons.1 hx with
                  | inl he => rw [he]; exact hsp
                  | inr hm => exact hws' x hm)
            show searchWsHash (c :: rest) = _
            unfold searchWsHash
            rw [hx, e1, e2, htws, hdk]
            simp
          · -- the whitespace run ends at a non-'#' character: no match here
            have hx : wsHashAt (c :: rest) = none := by
              simp only [wsHashAt]
              rw [hdrop]
              simp [hdh]
            have hdmem : d ∈ rest.takeWhile (· != '#') := by
              rw [← hsplit, takeWhile_append_all _ _ (d :: tl')
                (fun x hx => space_bne_hash (hws' x hx))]
              refine List.mem_append_right _ ?_
              simp [List.takeWhile_cons, hdh]
            have htws : trailingWs (c :: rest.takeWhile (· != '#'))
                = trailingWs (rest.takeWhile (· != '#')) :=
              trailingWs_cons_of_not_all c _ ⟨d, hdmem, hd'⟩
            show searchWsHash (c :: rest) = _
            unfold searchWsHash
            rw [hx, e1, e2, htws]
            exact searchWsHash_first_hash rest hmem
      · -- a non-whitespace, non-'#' character: no match at this position
        have hsp' : pyIsSpace c = false := by
          cases hpc : pyIsSpace c with
          | true => exact absurd hpc hsp
          | false => rfl
        have hx : wsHashAt (c :: rest) = none := by
          simp only [wsHashAt]
          have ht : (c :: rest).takeWhile pyIsSpace = [] := by
            simp [List.takeWhile_cons, hsp']
          rw [ht]
          simp [hch]
        show searchWsHash (c :: rest) = _
        unfold searchWsHash
        rw [hx, e1, e2, trailingWs_cons_not_space c (rest.takeWhile (· != '#')) hsp']
        exact searchWsHash_first_hash rest hmem

/-- C10.  When a firing parameter directive's target line has a value part
containing a `#`, the rewritten line reattaches, after the new formatted
value, exactly the suffix of the value part that starts at the maximal
whitespace run preceding its *first* `#` (with `.` of the regex stopping
before the trailing newline, which the rewrite re-appends): text from
that first `#` onward is preserved, not replaced. -/
theorem C10_trailing_comment_reattached (data : ValueMap)
    (dir target path g : List Char) (v : Value)
    (hd : searchParam dir = some path)
    (hv : (getValueByPath data path).1 = some v)
    (hc : isCommented target = false)
    (hg : lineStructMatch target = some g)
    (hh : '#' ∈ target.drop g.length) :
    trailingComment (target.drop g.length)
      = trailingWs ((target.drop g.length).takeWhile (· != '#'))
        ++ '#' :: ((target.drop g.length).dropWhile (· != '#')).tail.takeWhile (· != nlc)
    ∧ paramStep data dir target
      = some (rstrip g ++ ' '
          :: (format_value_for_file v
              ++ (trailingWs ((target.drop g.length).takeWhile (· != '#'))
                  ++ '#' :: ((target.drop g.length).dropWhile (· != '#')).tail.takeWhile
                      (· != nlc))
              ++ [nlc])) := by
  have hs := searchWsHash_first_hash (target.drop g.length) hh
  have htc : trailingComment (target.drop g.length)
      = trailingWs ((target.drop g.length).takeWhile (· != '#'))
        ++ '#' :: ((target.drop g.length).dropWhile (· != '#')).tail.takeWhile (· != nlc) := by
    unfold trailingComment
    rw [hs]
    rfl
  refine ⟨htc, ?_⟩
  simp only [paramStep, hd, hv, hc, hg, htc]
  simp

/-- Witness for C10: data `{k: "a#b"}`, target `k: x #note`; the suffix
` #note` (from the first `#` of the value part on) survives after the
injected quoted value. -/
theorem C10_witness :
    paramStep (vmap [("k".data, Value.str "a#b".data)])
        ("# @param k".data ++ [nlc]) ("k: x #note".data ++ [nlc])
      = some ("k:".data ++ ' '
          :: (dq :: "a#b".data ++ [dq] ++ (" #note".data ++ [nlc]))) :=
  (C10_trailing_comment_reattached (vmap [("k".data, Value.str "a#b".data)])
    ("# @param k".data ++ [nlc]) ("k: x #note".data ++ [nlc]) "k".data "k:".data
    (Value.str "a#b".data) (by decide) (by decide) (by decide) (by decide)
    (by decide)).2

end Injecto